import Mathlib

/-!
Shallow embedding of the pymooney image transformation pipeline
(src/crmooney.py, function apply_mooney_transform) and of its thresholding
engine (src/utils_image.py).

Conventions of the embedding:
* a grayscale image is a row-major list of rows of pixel intensities
  (unsigned 8-bit samples are naturals; overflow points are marked with
  an explicit `% 256` where numpy would wrap);
* a color image additionally carries a trailing channel list per pixel;
* fallible Python code returns `Except String`, the string naming the
  exception the Python code raises;
* the third-party floating point routines from skimage and numpy that the
  source calls (threshold_otsu, rank.otsu, the uint8 cast of np.dot) are
  embedded with exact integer / rational arithmetic over the same
  histograms and formulas that those routines document and implement;
* the Gaussian smoothing (scipy ndimage) and the PIL bilinear resize are
  numeric kernels none of the verified claims depend on, so the pipeline
  is parametric in them;
* file persistence (utils_image.save_img) is modelled by recording, in
  order, the paths the pipeline writes.
-/

/-- A 2D grayscale image: a list of rows of pixel intensities. -/
abbrev Gray := List (List Nat)

/-- A 3D color image: a list of rows of pixels, each pixel a list of
trailing channel samples. -/
abbrev Color := List (List (List Nat))

/-- An image as the pipeline receives it: `len(img.shape)` is 2 for `g2`
and 3 for `c3` (the two shapes the repository produces by loading images
from disk). -/
inductive PyImage where
  | g2 (img : Gray)
  | c3 (img : Color)

/-- Minimum of a list of naturals, 0 on the empty list (the empty case is
unreachable from `threshold_otsu`, which raises first). -/
def listMin : List Nat → Nat
  | [] => 0
  | v :: r => r.foldr Nat.min v

/-- Maximum of a list of naturals, 0 on the empty list. -/
def listMax : List Nat → Nat
  | [] => 0
  | v :: r => r.foldr Nat.max v

/-- The between-class variance that skimage.filters.threshold_otsu
maximizes, at split index `k` of the integer bins `lo .. hi` built from
the image minimum `lo` to the image maximum `hi` (for an integer image
skimage histograms one bin per intensity value):
`weight1[k] * weight2[k+1] * (mean1[k] - mean2[k+1])^2`, which equals the
exact fraction `(s1*w2 - s2*w1)^2 / (w1*w2)` with `w1, s1` the count and
intensity sum of bins `lo..lo+k` and `w2, s2` those of bins `lo+k+1..hi`.
skimage evaluates this in floating point; the embedding keeps the exact
numerator and denominator. -/
def otsuVariance (px : List Nat) (k : Nat) : ℤ × ℕ :=
  let lo := listMin px
  let hi := listMax px
  let w1 := ((List.range (k + 1)).map (fun t => px.count (lo + t))).sum
  let s1 := ((List.range (k + 1)).map (fun t => px.count (lo + t) * (lo + t))).sum
  let w2 := ((List.range (hi - lo - k)).map (fun t => px.count (lo + k + 1 + t))).sum
  let s2 := ((List.range (hi - lo - k)).map (fun t => px.count (lo + k + 1 + t) * (lo + k + 1 + t))).sum
  (((s1 : ℤ) * w2 - (s2 : ℤ) * w1) ^ 2, w1 * w2)

/-- The list `variance12` of threshold_otsu: one entry per split between
consecutive bins, i.e. `hi - lo` entries. -/
def otsuVariances (px : List Nat) : List (ℤ × ℕ) :=
  (List.range (listMax px - listMin px)).map (otsuVariance px)

/-- Strict comparison of two nonnegative fractions `x.1/x.2 < y.1/y.2`
(denominators positive at every use site). -/
def fracLt (x y : ℤ × ℕ) : Bool :=
  decide (x.1 * (y.2 : ℤ) < y.1 * (x.2 : ℤ))

/-- Tail of np.argmax: scan the remaining entries, keeping the first
index attaining the maximum. -/
def argmaxFrom (best : ℤ × ℕ) (bi i : Nat) : List (ℤ × ℕ) → Nat
  | [] => bi
  | x :: r => if fracLt best x then argmaxFrom x i (i + 1) r else argmaxFrom best bi (i + 1) r

/-- np.argmax on a list of exact fractions: index of the first maximal
entry, 0 on the empty list. -/
def argmaxIdx : List (ℤ × ℕ) → Nat
  | [] => 0
  | x :: r => argmaxFrom x 0 1 r

/-- The scalar skimage.filters.threshold_otsu computes from the flattened
pixel list: a uniform image short-circuits to its single intensity value,
otherwise the threshold is `bin_centers[argmax(variance12)]`, a bin center
between the image minimum and maximum. Total helper; `threshold_otsu`
below reproduces the raise on an empty image. -/
def otsuValue : List Nat → Nat
  | [] => 0
  | v :: rest =>
      if rest.all (fun x => x == v) then v
      else listMin (v :: rest) + argmaxIdx (otsuVariances (v :: rest))

/-- skimage.filters.threshold_otsu as called by utils_image.threshold_img:
works on the flattened image; indexing `image.ravel()[0]` raises on an
empty image. -/
def threshold_otsu (img : Gray) : Except String Nat :=
  match img.flatten with
  | [] => .error "IndexError: index 0 is out of bounds"
  | v :: rest => .ok (otsuValue (v :: rest))

/-- `img >= threshold` for a scalar threshold, composed with skimage
img_as_ubyte on the resulting boolean array: True maps to 255 and False
to 0 (the full unsigned 8-bit range, not 0/1). -/
def binarizeScalar (img : Gray) (t : Nat) : Gray :=
  img.map (fun row => row.map (fun p => if t ≤ p then 255 else 0))

/-- `img >= threshold` for a per-pixel threshold array, composed with
img_as_ubyte as above. -/
def binarizeArray (img ts : Gray) : Gray :=
  List.zipWith (fun row trow => List.zipWith (fun p t => if t ≤ p then 255 else 0) row trow)
    img ts

/-- The pixel values of `img` lying inside the disk of the given radius
centered at `(i, j)`: skimage.morphology.disk(radius) holds the offsets
`(di, dj)` with `di^2 + dj^2 <= radius^2`, and the rank filters evaluate
only the samples of the structuring element that fall inside the image. -/
def diskNeighborhood (img : Gray) (radius i j : Nat) : List Nat :=
  (img.enum.map (fun ir =>
    ir.2.enum.filterMap (fun jc =>
      if ((ir.1 : ℤ) - (i : ℤ)) ^ 2 + ((jc.1 : ℤ) - (j : ℤ)) ^ 2 ≤ ((radius : ℤ)) ^ 2
      then some jc.2 else none))).flatten

/-- skimage.filters.rank.otsu: for every pixel, the Otsu threshold of the
histogram of its disk neighborhood (the same between-class-variance
criterion applied to the local histogram); the output array has the shape
of the input image. -/
def rank_otsu (img : Gray) (radius : Nat) : Gray :=
  img.enum.map (fun ir =>
    ir.2.enum.map (fun jc => otsuValue (diskNeighborhood img radius ir.1 jc.1)))

/-- The threshold utils_image.threshold_img returns: a single scalar for
the global method, an array congruent to the image for the local one. -/
inductive ThresholdValue where
  | scalar (t : Nat)
  | arr2 (ts : Gray)
deriving DecidableEq

/-- The pixel conversion inside utils_image.rgb2gray:
`np.uint8(np.dot(pixel[:3], [0.299, 0.587, 0.114]))`. np.dot forms the
weighted sum `0.299*c0 + 0.587*c1 + 0.114*c2` and the np.uint8 cast
truncates toward zero and wraps modulo 256; on naturals this is the floor
division `(299*c0 + 587*c1 + 114*c2) / 1000` followed by `% 256`. -/
def grayPixel (c : List Nat) : Nat :=
  ((299 * c.getD 0 0 + 587 * c.getD 1 0 + 114 * c.getD 2 0) / 1000) % 256

/-- utils_image.rgb2gray:
`np.uint8(np.dot(img[..., :3], [0.299, 0.587, 0.114]))`. The slice
`img[..., :3]` keeps the first three channels of every pixel and np.dot
raises ValueError when fewer than three remain; the output drops the
channel dimension. -/
def rgb2gray (img : Color) : Except String Gray :=
  if img.all (fun row => row.all (fun c => decide (3 ≤ c.length))) then
    .ok (img.map (fun row => row.map grayPixel))
  else
    .error "ValueError: shapes not aligned"

/-- The grayscale normalization at the top of utils_image.threshold_img:
`if len(img.shape) > 2: img = rgb2gray(img)`. -/
def toGray (img : PyImage) : Except String Gray :=
  match img with
  | .g2 g => .ok g
  | .c3 c => rgb2gray c

/-- utils_image.threshold_img(img, method, radius): grayscale
normalization, then either the global Otsu scalar or the per-pixel local
Otsu array, binarized by `img >= threshold` and mapped to unsigned 8-bit
by img_as_ubyte. A method string matching neither branch leaves
`img_binary` unassigned and the return statement raises. The Python
default for `radius` is 50. -/
def threshold_img (img : PyImage) (method : String) (radius : Nat) :
    Except String (Gray × ThresholdValue) :=
  match toGray img with
  | .error e => .error e
  | .ok g =>
    if method = "global_otsu" then
      match threshold_otsu g with
      | .error e => .error e
      | .ok t => .ok (binarizeScalar g t, .scalar t)
    else if method = "local_otsu" then
      .ok (binarizeArray g (rank_otsu g radius), .arr2 (rank_otsu g radius))
    else
      .error "UnboundLocalError: img_binary referenced before assignment"

/-- The transformations dictionary of apply_mooney_transform: each field
optional, read with `transformations.get(key, default)`. -/
structure Transformations where
  image_size : Option (Nat × Nat)
  resize : Option Bool
  smooth_sigma : Option Nat
  threshold_method : Option String

/-- The `transformations` argument of apply_mooney_transform before the
`isinstance(transformations, dict)` assertion: any non-dict value is
`notDict`. -/
inductive TransArg where
  | notDict
  | dict (t : Transformations)

/-- The result dictionary apply_mooney_transform returns. -/
structure MooneyResult where
  img_id : Option Nat
  img_name : String
  img_mooney : Gray
  threshold : ThresholdValue
  threshold_method : String
  resize : Bool
  smooth_sigma : Nat
  url : Option String
  mooneypath : String
  imagepath : String
deriving DecidableEq

/-- Python `imgname.split(".")[0]`: the longest prefix of the filename
before its first dot (the whole name when it has no dot). -/
def pySplitFirst (s : String) : String :=
  String.mk (s.toList.takeWhile (fun c => c ≠ '.'))

/-- os.path.join for the shapes the pipeline uses (a relative file name
under a directory given without trailing separator; joining with the
empty directory returns the name). -/
def pathJoin (dir name : String) : String :=
  if dir = "" then name else dir ++ "/" ++ name

/-- Whether an Except carries a value. -/
def exceptIsOk {ε α : Type} : Except ε α → Bool
  | .ok _ => true
  | .error _ => false

/-- crmooney.apply_mooney_transform. `gaussF` stands for
scipy.ndimage.gaussian_filter(img, sigma, mode="nearest") and `resizeF`
for the PIL bilinear resize; the pipeline is parametric in these numeric
kernels. The first component of the result lists, in order, the file
paths the save_img calls write; the second is the returned dictionary or
the exception that aborts the call. The source invokes threshold_img
without a radius argument, so Python supplies the default 50. -/
def applyMooneyTransform (gaussF : Gray → Nat → Gray) (resizeF : Gray → Nat × Nat → Gray)
    (img : PyImage) (imagepath imgname mooneypath : String) (arg : TransArg)
    (url : Option String) (photo_id : Option Nat) :
    List String × Except String MooneyResult :=
  match arg with
  | .notDict => ([], .error "AssertionError: transformations argument has to be a dict")
  | .dict t =>
    let image_size := t.image_size.getD (400, 400)
    let rsz := t.resize.getD false
    let smooth_sigma := t.smooth_sigma.getD 6
    let threshold_method := t.threshold_method.getD "global_otsu"
    let base := pySplitFirst imgname
    let step0 : Except String (Gray × List String) :=
      match img with
      | .g2 g => .ok (g, [])
      | .c3 c =>
        match rgb2gray c with
        | .error e => .error e
        | .ok g => .ok (g, [pathJoin mooneypath (base ++ "_g.png")])
    match step0 with
    | .error e => ([], .error e)
    | .ok (g0, files0) =>
      let g1 := if rsz then resizeF g0 image_size else g0
      let files1 := if rsz then files0 ++ [pathJoin mooneypath (base ++ "_gr.png")] else files0
      let gs := gaussF g1 smooth_sigma
      let files2 := files1 ++ [pathJoin mooneypath (base ++ "_s.png")]
      match threshold_img (.g2 gs) threshold_method 50 with
      | .error e => (files2, .error e)
      | .ok (mooney, thr) =>
        (files2 ++ [pathJoin mooneypath (base ++ "_m.png")],
         .ok ⟨photo_id, base, mooney, thr, threshold_method, rsz, smooth_sigma, url,
              mooneypath, imagepath⟩)

/-- Abstract filesystem state for pathlib.Path.mkdir: the directories
that exist and the directories whose creation the operating system
denies. A path is its list of components. -/
structure FileSystem where
  dirs : List (List String)
  denied : List (List String)

/-- The Python exceptions involved in utils_image.mkdir. -/
inductive PyExc where
  | permissionError (p : List String)
  | valueError (msg : String)

/-- The nonempty prefixes of a path, shortest first: the chain of
directories Path.mkdir(parents=True) creates on the way down. -/
def ancestors (p : List String) : List (List String) :=
  (List.range p.length).map (fun k => p.take (k + 1))

/-- One pass of Path.mkdir(parents=True, exist_ok=True) over a chain of
directories: an existing directory is left alone (exist_ok), a denied
creation raises PermissionError, otherwise the directory is created. -/
def mkdirChain (fs : FileSystem) : List (List String) → Except PyExc FileSystem
  | [] => .ok fs
  | q :: rest =>
    if q ∈ fs.dirs then mkdirChain fs rest
    else if q ∈ fs.denied then .error (.permissionError q)
    else mkdirChain ⟨q :: fs.dirs, fs.denied⟩ rest

/-- pathlib.Path.mkdir(parents=True, exist_ok=True) on a path. -/
def pathMkdir (fs : FileSystem) (p : List String) : Except PyExc FileSystem :=
  mkdirChain fs (ancestors p)

/-- utils_image.mkdir: calls Path.mkdir(parents=True, exist_ok=True) and
re-raises a PermissionError as a ValueError whose message names the path
and asks to adapt permissions. -/
def mkdir (fs : FileSystem) (folderpath : List String) : Except PyExc FileSystem :=
  match pathMkdir fs folderpath with
  | .error (.permissionError _) =>
      .error (.valueError ("Please adapt permissions to create "
        ++ String.intercalate "/" folderpath ++ " or choose a different directory."))
  | r => r

/-- Modelled from the words of claim C2 for comparison with the source:
the weighted sum `0.299*R + 0.587*G + 0.114*B` rounded to the nearest
integer, i.e. `floor(x + 1/2)` on the exact sum, written over naturals as
`(2*(299*c0 + 587*c1 + 114*c2) + 1000) / 2000` (ties round up; the
counterexample below is not a tie, so the tie convention is immaterial). -/
def grayPixelRounded (c : List Nat) : Nat :=
  (2 * (299 * c.getD 0 0 + 587 * c.getD 1 0 + 114 * c.getD 2 0) + 1000) / 2000

/-- Modelled from the words of claim C3 for comparison with the source:
the source filename with only its final extension stripped (everything
before the last dot; the name itself when it has no dot). -/
def stripLastExt (s : String) : String :=
  let rev := s.toList.reverse
  if rev.contains '.' then String.mk ((rev.dropWhile (fun c => c ≠ '.')).drop 1).reverse
  else s

/-- The shape of a 2D image: its list of row lengths. -/
def shape2 (g : Gray) : List Nat :=
  g.map List.length

/-- Pixel access with defaults, for stating per-pixel properties. -/
def pix (g : Gray) (i j : Nat) : Nat :=
  (g.getD i []).getD j 0

instance {e a : Type} [DecidableEq e] [DecidableEq a] : DecidableEq (Except e a)
  | .ok x, .ok y =>
    if h : x = y then .isTrue (by rw [h]) else .isFalse (fun hc => by cases hc; exact h rfl)
  | .ok x, .error y => .isFalse (fun hc => by cases hc)
  | .error x, .ok y => .isFalse (fun hc => by cases hc)
  | .error x, .error y =>
    if h : x = y then .isTrue (by rw [h]) else .isFalse (fun hc => by cases hc; exact h rfl)

theorem foldrMin_le_init (r : List Nat) (v : Nat) : r.foldr Nat.min v ≤ v := by
  induction r with
  | nil => exact Nat.le_refl v
  | cons a r ih => exact Nat.le_trans (Nat.min_le_right a (r.foldr Nat.min v)) ih

theorem foldrMin_le_mem (r : List Nat) (v x : Nat) (h : x ∈ r) : r.foldr Nat.min v ≤ x := by
  induction r with
  | nil => cases h
  | cons a r ih =>
    rcases List.mem_cons.mp h with h1 | h2
    · exact h1 ▸ Nat.min_le_left a (r.foldr Nat.min v)
    · exact Nat.le_trans (Nat.min_le_right a (r.foldr Nat.min v)) (ih h2)

theorem listMin_le_of_mem {l : List Nat} {x : Nat} (h : x ∈ l) : listMin l ≤ x := by
  cases l with
  | nil => cases h
  | cons v r =>
    rcases List.mem_cons.mp h with h1 | h2
    · exact h1 ▸ foldrMin_le_init r v
    · exact foldrMin_le_mem r v x h2

theorem init_le_foldrMax (r : List Nat) (v : Nat) : v ≤ r.foldr Nat.max v := by
  induction r with
  | nil => exact Nat.le_refl v
  | cons a r ih => exact Nat.le_trans ih (Nat.le_max_right a (r.foldr Nat.max v))

theorem mem_le_foldrMax (r : List Nat) (v x : Nat) (h : x ∈ r) : x ≤ r.foldr Nat.max v := by
  induction r with
  | nil => cases h
  | cons a r ih =>
    rcases List.mem_cons.mp h with h1 | h2
    · exact h1 ▸ Nat.le_max_left a (r.foldr Nat.max v)
    · exact Nat.le_trans (ih h2) (Nat.le_max_right a (r.foldr Nat.max v))

theorem le_listMax_of_mem {l : List Nat} {x : Nat} (h : x ∈ l) : x ≤ listMax l := by
  cases l with
  | nil => cases h
  | cons v r =>
    rcases List.mem_cons.mp h with h1 | h2
    · exact h1 ▸ init_le_foldrMax r v
    · exact mem_le_foldrMax r v x h2

theorem argmaxFrom_lt (r : List (ℤ × ℕ)) :
    ∀ (best : ℤ × ℕ) (bi i k : Nat), bi < k → i + r.length ≤ k →
      argmaxFrom best bi i r < k := by
  induction r with
  | nil =>
    intro best bi i k h1 _
    simpa [argmaxFrom] using h1
  | cons x r ih =>
    intro best bi i k h1 h2
    simp only [argmaxFrom]
    have hi2 : (i + 1) + r.length ≤ k := by
      simp only [List.length_cons] at h2
      omega
    split
    · exact ih x i (i + 1) k (by omega) hi2
    · exact ih best bi (i + 1) k h1 hi2

theorem argmaxIdx_lt_length (l : List (ℤ × ℕ)) (h : l ≠ []) : argmaxIdx l < l.length := by
  cases l with
  | nil => exact absurd rfl h
  | cons x r =>
    simp only [argmaxIdx, List.length_cons]
    exact argmaxFrom_lt r x 0 1 (r.length + 1) (by omega) (by omega)

theorem otsuVariances_length (px : List Nat) :
    (otsuVariances px).length = listMax px - listMin px := by
  simp [otsuVariances]

theorem otsuValue_mem_range (px : List Nat) (h : px ≠ []) :
    listMin px ≤ otsuValue px ∧ otsuValue px ≤ listMax px := by
  obtain ⟨v, rest, rfl⟩ := List.exists_cons_of_ne_nil h
  have hv : v ∈ v :: rest := List.mem_cons_self v rest
  by_cases hall : rest.all (fun x => x == v) = true
  · have hov : otsuValue (v :: rest) = v := by simp [otsuValue, hall]
    rw [hov]
    exact ⟨listMin_le_of_mem hv, le_listMax_of_mem hv⟩
  · have hov : otsuValue (v :: rest)
        = listMin (v :: rest) + argmaxIdx (otsuVariances (v :: rest)) := by
      simp [otsuValue, hall]
    rw [hov]
    constructor
    · exact Nat.le_add_right _ _
    · by_cases hlen : otsuVariances (v :: rest) = []
      · have h0 : argmaxIdx (otsuVariances (v :: rest)) = 0 := by rw [hlen]; rfl
        rw [h0]
        exact Nat.le_trans (Nat.le_of_eq (Nat.add_zero _))
          (Nat.le_trans (listMin_le_of_mem hv) (le_listMax_of_mem hv))
      · have hb := argmaxIdx_lt_length (otsuVariances (v :: rest)) hlen
        rw [otsuVariances_length] at hb
        omega

/-- C1: for every nonempty grayscale (2D) image thresholded with the
global method, threshold_img returns a single scalar threshold lying
between the minimum and maximum intensity of the image, and the output
marks exactly the pixels with intensity at least the threshold with the
unsigned 8-bit value 255, all others with 0. -/
theorem threshold_img_global_spec (img : Gray) (h : img.flatten ≠ []) :
    ∃ t : Nat,
      threshold_img (.g2 img) "global_otsu" 50
        = .ok (img.map (fun row => row.map (fun p => if t ≤ p then 255 else 0)),
               .scalar t)
      ∧ listMin img.flatten ≤ t ∧ t ≤ listMax img.flatten := by
  obtain ⟨v, rest, hvr⟩ := List.exists_cons_of_ne_nil h
  refine ⟨otsuValue img.flatten, ?_, (otsuValue_mem_range img.flatten h).1,
    (otsuValue_mem_range img.flatten h).2⟩
  have ht : threshold_otsu img = .ok (otsuValue img.flatten) := by
    simp only [threshold_otsu, hvr]
  simp [threshold_img, toGray, ht, binarizeScalar]

/-- Witness for C1 at the concrete image [[0, 2]]. -/
theorem threshold_img_global_spec_witness :
    ∃ t : Nat,
      threshold_img (.g2 [[0, 2]]) "global_otsu" 50
        = .ok (([[0, 2]] : Gray).map (fun row => row.map (fun p => if t ≤ p then 255 else 0)),
               .scalar t)
      ∧ listMin (([[0, 2]] : Gray).flatten) ≤ t ∧ t ≤ listMax (([[0, 2]] : Gray).flatten) :=
  threshold_img_global_spec [[0, 2]] (by decide)

/-- C4: thresholding a nonempty uniform image of constant value v with the
global method does not fail: the threshold is the single intensity value
present and every pixel of the output receives the same classification,
namely 255 (since v >= v holds everywhere). -/
theorem threshold_img_uniform (img : Gray) (v : Nat) (h1 : img.flatten ≠ [])
    (h2 : ∀ x ∈ img.flatten, x = v) :
    threshold_img (.g2 img) "global_otsu" 50
      = .ok (img.map (fun row => row.map (fun _ => 255)), .scalar v) := by
  obtain ⟨w, rest, hvr⟩ := List.exists_cons_of_ne_nil h1
  have hw : w = v := h2 w (hvr ▸ List.mem_cons_self w rest)
  subst hw
  have hrest : rest.all (fun x => x == w) = true := by
    rw [List.all_eq_true]
    intro x hx
    exact beq_iff_eq.mpr (h2 x (hvr ▸ List.mem_cons_of_mem w hx))
  have hov : otsuValue (w :: rest) = w := by simp [otsuValue, hrest]
  have ht : threshold_otsu img = .ok w := by
    simp only [threshold_otsu, hvr, hov]
  have hbin : binarizeScalar img w = img.map (fun row => row.map (fun _ => 255)) := by
    unfold binarizeScalar
    refine List.map_congr_left (fun row hrow => ?_)
    refine List.map_congr_left (fun p hp => ?_)
    have hpv : p = w := h2 p (List.mem_flatten.mpr ⟨row, hrow, hp⟩)
    simp [hpv]
  simp [threshold_img, toGray, ht, hbin]

/-- Witness for C4 at the concrete constant-200 image of size 2 x 2:
the threshold is 200 and the binary image is entirely on. -/
theorem threshold_img_uniform_witness :
    threshold_img (.g2 [[200, 200], [200, 200]]) "global_otsu" 50
      = .ok (([[200, 200], [200, 200]] : Gray).map (fun row => row.map (fun _ => 255)),
             .scalar 200) :=
  threshold_img_uniform [[200, 200], [200, 200]] 200 (by decide) (by decide)

theorem getDq {α : Type} (l : List α) (n : Nat) (d : α) : l.getD n d = (l[n]?).getD d := by
  simp [List.getD]

theorem shape2_rank_otsu (img : Gray) (radius : Nat) :
    shape2 (rank_otsu img radius) = shape2 img := by
  unfold shape2 rank_otsu
  rw [List.map_map]
  have h1 : ∀ ir ∈ img.enum,
      (List.length ∘ fun ir : Nat × List Nat =>
        ir.2.enum.map (fun jc => otsuValue (diskNeighborhood img radius ir.1 jc.1))) ir
      = (List.length ∘ (Prod.snd : Nat × List Nat → List Nat)) ir := by
    intro ir _
    simp [List.enum_length]
  rw [List.map_congr_left h1, ← List.map_map, List.enum_map_snd]

theorem shape2_length {a b : Gray} (h : shape2 a = shape2 b) : a.length = b.length := by
  have h2 := congrArg List.length h
  simpa [shape2] using h2

theorem shape2_row_length {a b : Gray} (h : shape2 a = shape2 b) (i : Nat)
    (hi : i < a.length) :
    (a.getD i []).length = (b.getD i []).length := by
  have hlen : a.length = b.length := shape2_length h
  have hib : i < b.length := hlen ▸ hi
  have h1 := congrArg (fun l : List Nat => l[i]?) h
  simp only [shape2, List.getElem?_map] at h1
  rw [List.getElem?_eq_getElem hi, List.getElem?_eq_getElem hib] at h1
  rw [List.getD_eq_getElem a [] hi, List.getD_eq_getElem b [] hib]
  simpa using h1

theorem pix_rank_otsu (img : Gray) (radius i j : Nat) (hi : i < img.length)
    (hj : j < (img.getD i []).length) :
    pix (rank_otsu img radius) i j = otsuValue (diskNeighborhood img radius i j) := by
  have hrowD : img.getD i [] = img[i] := List.getD_eq_getElem img [] hi
  have hj2 : j < img[i].length := hrowD ▸ hj
  have h1 : (rank_otsu img radius).getD i []
      = img[i].enum.map (fun jc => otsuValue (diskNeighborhood img radius i jc.1)) := by
    have hi2 : i < (rank_otsu img radius).length := by
      unfold rank_otsu
      simpa [List.enum_length] using hi
    rw [List.getD_eq_getElem (rank_otsu img radius) [] hi2]
    unfold rank_otsu
    rw [List.getElem_map]
    rw [List.getElem_enum]
  have hj3 : j < (img[i].enum.map
      (fun jc => otsuValue (diskNeighborhood img radius i jc.1))).length := by
    simpa [List.enum_length] using hj2
  unfold pix
  rw [h1, List.getD_eq_getElem _ 0 hj3, List.getElem_map, List.getElem_enum]

theorem pix_binarizeArray (a b : Gray) (i j : Nat)
    (hia : i < a.length) (hib : i < b.length)
    (hja : j < (a.getD i []).length) (hjb : j < (b.getD i []).length) :
    pix (binarizeArray a b) i j = if pix b i j ≤ pix a i j then 255 else 0 := by
  have haD : a.getD i [] = a[i] := List.getD_eq_getElem a [] hia
  have hbD : b.getD i [] = b[i] := List.getD_eq_getElem b [] hib
  have hja2 : j < a[i].length := haD ▸ hja
  have hjb2 : j < b[i].length := hbD ▸ hjb
  have hi2 : i < (binarizeArray a b).length := by
    unfold binarizeArray
    simp only [List.length_zipWith]
    omega
  have h1 : (binarizeArray a b).getD i []
      = List.zipWith (fun p t => if t ≤ p then 255 else 0) a[i] b[i] := by
    rw [List.getD_eq_getElem (binarizeArray a b) [] hi2]
    unfold binarizeArray
    rw [List.getElem_zipWith]
  have hj3 : j < (List.zipWith (fun p t => if t ≤ p then 255 else 0) a[i] b[i]).length := by
    simp only [List.length_zipWith]
    omega
  unfold pix
  rw [h1, List.getD_eq_getElem _ 0 hj3, List.getElem_zipWith, haD, hbD,
    List.getD_eq_getElem a[i] 0 hja2, List.getD_eq_getElem b[i] 0 hjb2]

/-- C7: for every nonempty grayscale image thresholded with the local
method, threshold_img returns a threshold array of the same shape as the
image whose entry at (i, j) is the Otsu cutoff of the disk neighborhood
of the given radius around (i, j), and the output marks a pixel 255
exactly when its own intensity is at least its local cutoff, 0 otherwise.
(The nonemptiness hypothesis mirrors rank.otsu, which rejects an empty
image.) -/
theorem threshold_img_local_spec (img : Gray) (radius : Nat) (h : img.flatten ≠ []) :
    ∃ ts bin,
      threshold_img (.g2 img) "local_otsu" radius = .ok (bin, .arr2 ts)
      ∧ shape2 ts = shape2 img
      ∧ (∀ i j, i < img.length → j < (img.getD i []).length →
          pix ts i j = otsuValue (diskNeighborhood img radius i j)
          ∧ pix bin i j = (if pix ts i j ≤ pix img i j then 255 else 0)) := by
  refine ⟨rank_otsu img radius, binarizeArray img (rank_otsu img radius), rfl,
    shape2_rank_otsu img radius, ?_⟩
  intro i j hi hj
  have hsh := shape2_rank_otsu img radius
  have hlen : (rank_otsu img radius).length = img.length := shape2_length hsh
  have hrl : ((rank_otsu img radius).getD i []).length = (img.getD i []).length :=
    shape2_row_length hsh i (hlen ▸ hi)
  refine ⟨pix_rank_otsu img radius i j hi hj, ?_⟩
  exact pix_binarizeArray img (rank_otsu img radius) i j hi (hlen ▸ hi) hj (hrl ▸ hj)

/-- Witness for C7 at the concrete image [[0, 2]] with radius 50. -/
theorem threshold_img_local_spec_witness :
    ∃ ts bin,
      threshold_img (.g2 [[0, 2]]) "local_otsu" 50 = .ok (bin, .arr2 ts)
      ∧ shape2 ts = shape2 [[0, 2]]
      ∧ (∀ i j, i < ([[0, 2]] : Gray).length → j < (([[0, 2]] : Gray).getD i []).length →
          pix ts i j = otsuValue (diskNeighborhood [[0, 2]] 50 i j)
          ∧ pix bin i j = (if pix ts i j ≤ pix [[0, 2]] i j then 255 else 0)) :=
  threshold_img_local_spec [[0, 2]] 50 (by decide)

/-- C10: when the pipeline runs with the local thresholding method, the
neighborhood radius actually used is the fixed value 50: the source calls
threshold_img without a radius argument (Python fills in the default 50)
and the transformations dictionary carries no radius key, so every
successful local run has its threshold array and binary output computed
with radius 50. -/
theorem pipeline_local_radius_50 (gaussF : Gray → Nat → Gray)
    (resizeF : Gray → Nat × Nat → Gray) (img : PyImage)
    (imagepath imgname mooneypath : String) (t : Transformations)
    (url : Option String) (photo_id : Option Nat) (r : MooneyResult)
    (hm : t.threshold_method.getD "global_otsu" = "local_otsu")
    (hr : (applyMooneyTransform gaussF resizeF img imagepath imgname mooneypath
            (.dict t) url photo_id).2 = .ok r) :
    ∃ g : Gray, r.threshold = .arr2 (rank_otsu g 50)
      ∧ r.img_mooney = binarizeArray g (rank_otsu g 50) := by
  cases img with
  | g2 g =>
    simp only [applyMooneyTransform, hm] at hr
    have hth : ∀ gs : Gray, threshold_img (.g2 gs) "local_otsu" 50
        = .ok (binarizeArray gs (rank_otsu gs 50), .arr2 (rank_otsu gs 50)) :=
      fun gs => rfl
    rw [hth] at hr
    simp only [Except.ok.injEq] at hr
    exact ⟨_, by rw [← hr], by rw [← hr]⟩
  | c3 c =>
    cases hg : rgb2gray c with
    | error e =>
      simp only [applyMooneyTransform, hm, hg] at hr
      cases hr
    | ok g =>
      simp only [applyMooneyTransform, hm, hg] at hr
      have hth : ∀ gs : Gray, threshold_img (.g2 gs) "local_otsu" 50
          = .ok (binarizeArray gs (rank_otsu gs 50), .arr2 (rank_otsu gs 50)) :=
        fun gs => rfl
      rw [hth] at hr
      simp only [Except.ok.injEq] at hr
      exact ⟨_, by rw [← hr], by rw [← hr]⟩

/-- Witness for C10: a concrete local-method run of the pipeline. -/
theorem pipeline_local_radius_50_witness :
    ∃ g : Gray,
      (⟨none, "x", [[255, 255]], .arr2 [[0, 0]], "local_otsu", false, 6, none, "", ""⟩
        : MooneyResult).threshold = .arr2 (rank_otsu g 50)
      ∧ (⟨none, "x", [[255, 255]], .arr2 [[0, 0]], "local_otsu", false, 6, none, "", ""⟩
        : MooneyResult).img_mooney = binarizeArray g (rank_otsu g 50) :=
  pipeline_local_radius_50 (fun g _ => g) (fun g _ => g) (.g2 [[0, 2]]) "" "x.png" ""
    ⟨none, none, none, some "local_otsu"⟩ none none
    ⟨none, "x", [[255, 255]], .arr2 [[0, 0]], "local_otsu", false, 6, none, "", ""⟩
    (by decide) (by decide)

/-- C9: the pipeline is deterministic as a function of its inputs: two
invocations of apply_mooney_transform on the same image, names, paths,
configuration and numeric kernels produce identical outputs (written
files and result record alike); there is no shared mutable state in the
embedding for an invocation to depend on. -/
theorem pipeline_deterministic (gaussF : Gray → Nat → Gray)
    (resizeF : Gray → Nat × Nat → Gray) (img : PyImage)
    (imagepath imgname mooneypath : String) (arg : TransArg)
    (url : Option String) (photo_id : Option Nat)
    (out1 out2 : List String × Except String MooneyResult)
    (h1 : applyMooneyTransform gaussF resizeF img imagepath imgname mooneypath arg
            url photo_id = out1)
    (h2 : applyMooneyTransform gaussF resizeF img imagepath imgname mooneypath arg
            url photo_id = out2) :
    out1 = out2 :=
  h1 ▸ h2 ▸ rfl

/-- Witness for C9: two runs on the concrete image [[0, 2]]. -/
theorem pipeline_deterministic_witness :
    (applyMooneyTransform (fun g _ => g) (fun g _ => g) (.g2 [[0, 2]]) "" "x.png" ""
      (.dict ⟨none, none, none, none⟩) none none)
    = (applyMooneyTransform (fun g _ => g) (fun g _ => g) (.g2 [[0, 2]]) "" "x.png" ""
      (.dict ⟨none, none, none, none⟩) none none) :=
  pipeline_deterministic (fun g _ => g) (fun g _ => g) (.g2 [[0, 2]]) "" "x.png" ""
    (.dict ⟨none, none, none, none⟩) none none _ _ rfl rfl

theorem grayPixel_floor (c : List Nat) (hb : ∀ v ∈ c, v ≤ 255) (hc : 3 ≤ c.length) :
    grayPixel c
      = ⌊(299 * (c.getD 0 0 : ℚ) + 587 * (c.getD 1 0 : ℚ) + 114 * (c.getD 2 0 : ℚ)) / 1000⌋₊
    ∧ grayPixel c ≤ 255 := by
  have h0 : c.getD 0 0 ≤ 255 := by
    rw [List.getD_eq_getElem c 0 (by omega)]
    exact hb _ (List.getElem_mem _)
  have h1 : c.getD 1 0 ≤ 255 := by
    rw [List.getD_eq_getElem c 0 (by omega)]
    exact hb _ (List.getElem_mem _)
  have h2 : c.getD 2 0 ≤ 255 := by
    rw [List.getD_eq_getElem c 0 (by omega)]
    exact hb _ (List.getElem_mem _)
  have hmod : grayPixel c
      = (299 * c.getD 0 0 + 587 * c.getD 1 0 + 114 * c.getD 2 0) / 1000 := by
    unfold grayPixel
    omega
  have hcast : 299 * (c.getD 0 0 : ℚ) + 587 * (c.getD 1 0 : ℚ) + 114 * (c.getD 2 0 : ℚ)
      = ((299 * c.getD 0 0 + 587 * c.getD 1 0 + 114 * c.getD 2 0 : ℕ) : ℚ) := by
    push_cast
    ring
  constructor
  · rw [hmod, hcast, show ((1000 : ℚ)) = ((1000 : ℕ) : ℚ) by norm_num,
      Nat.floor_div_nat, Nat.floor_natCast]
  · rw [hmod]
    omega

/-- C2 (amended): for every color image whose pixels carry at least three
8-bit channels, rgb2gray succeeds, keeps the two outer dimensions while
dropping the channel dimension, and each output pixel is the weighted sum
0.299R + 0.587G + 0.114B truncated toward zero (the floor), not rounded
to the nearest integer, and lies in [0, 255]. -/
theorem rgb2gray_spec (img : Color)
    (hc : ∀ row ∈ img, ∀ c ∈ row, 3 ≤ c.length)
    (hb : ∀ row ∈ img, ∀ c ∈ row, ∀ v ∈ c, v ≤ 255) :
    rgb2gray img = .ok (img.map (fun row => row.map grayPixel))
    ∧ shape2 (img.map (fun row => row.map grayPixel)) = img.map List.length
    ∧ ∀ row ∈ img, ∀ c ∈ row,
        grayPixel c = ⌊(299 * (c.getD 0 0 : ℚ) + 587 * (c.getD 1 0 : ℚ)
            + 114 * (c.getD 2 0 : ℚ)) / 1000⌋₊
        ∧ grayPixel c ≤ 255 := by
  refine ⟨?_, ?_, ?_⟩
  · have hall : img.all (fun row => row.all (fun c => decide (3 ≤ c.length))) = true := by
      simp only [List.all_eq_true, decide_eq_true_eq]
      exact hc
    simp [rgb2gray, hall]
  · simp [shape2, List.map_map, Function.comp, List.length_map]
  · intro row hrow c hcc
    exact grayPixel_floor c (hb row hrow c hcc) (hc row hrow c hcc)

/-- Witness for the amended C2 at the concrete pixel (0, 0, 5). -/
theorem rgb2gray_spec_witness :
    rgb2gray [[[0, 0, 5]]] = .ok (([[[0, 0, 5]]] : Color).map (fun row => row.map grayPixel))
    ∧ shape2 (([[[0, 0, 5]]] : Color).map (fun row => row.map grayPixel))
        = ([[[0, 0, 5]]] : Color).map List.length
    ∧ ∀ row ∈ ([[[0, 0, 5]]] : Color), ∀ c ∈ row,
        grayPixel c = ⌊(299 * (c.getD 0 0 : ℚ) + 587 * (c.getD 1 0 : ℚ)
            + 114 * (c.getD 2 0 : ℚ)) / 1000⌋₊
        ∧ grayPixel c ≤ 255 :=
  rgb2gray_spec [[[0, 0, 5]]] (by decide) (by decide)

/-- C2 counterexample: at the pixel (R, G, B) = (0, 0, 5) the exact
weighted sum is 0.57, whose nearest integer is 1, but the code truncates
and produces 0: the conversion does not round to the nearest integer. -/
theorem rgb2gray_truncation_counterexample :
    rgb2gray [[[0, 0, 5]]] = .ok [[grayPixel [0, 0, 5]]]
    ∧ grayPixel [0, 0, 5] = 0
    ∧ grayPixelRounded [0, 0, 5] = 1
    ∧ grayPixel [0, 0, 5] ≠ grayPixelRounded [0, 0, 5] := by decide

/-- C3 (amended): every file the pipeline persists is placed under
mooneypath and named by the source filename truncated at its FIRST dot
(not the filename minus only its final extension), followed by one of the
stage suffixes _g, _gr, _s, _m and the single fixed raster extension
.png. -/
theorem pipeline_filenames (gaussF : Gray → Nat → Gray)
    (resizeF : Gray → Nat × Nat → Gray) (img : PyImage)
    (imagepath imgname mooneypath : String) (arg : TransArg)
    (url : Option String) (photo_id : Option Nat) (f : String)
    (hf : f ∈ (applyMooneyTransform gaussF resizeF img imagepath imgname mooneypath arg
            url photo_id).1) :
    ∃ sfx ∈ (["_g.png", "_gr.png", "_s.png", "_m.png"] : List String),
      f = pathJoin mooneypath (pySplitFirst imgname ++ sfx) := by
  cases arg with
  | notDict => simp [applyMooneyTransform] at hf
  | dict t =>
    cases img with
    | g2 g =>
      cases hrsz : t.resize.getD false with
      | false =>
        simp only [applyMooneyTransform, hrsz] at hf
        cases hth : threshold_img
            (.g2 (gaussF g (t.smooth_sigma.getD 6))) (t.threshold_method.getD "global_otsu") 50 with
        | error e =>
          simp only [hth, Bool.false_eq_true, if_false, List.nil_append] at hf
          rcases List.mem_singleton.mp hf with rfl
          exact ⟨"_s.png", by simp, rfl⟩
        | ok p =>
          cases p with
          | mk mooney thr =>
            simp only [hth, Bool.false_eq_true, if_false, List.nil_append] at hf
            rcases List.mem_cons.mp hf with rfl | hf2
            · exact ⟨"_s.png", by simp, rfl⟩
            · rcases List.mem_singleton.mp hf2 with rfl
              exact ⟨"_m.png", by simp, rfl⟩
      | true =>
        simp only [applyMooneyTransform, hrsz] at hf
        cases hth : threshold_img
            (.g2 (gaussF (resizeF g (t.image_size.getD (400, 400))) (t.smooth_sigma.getD 6)))
            (t.threshold_method.getD "global_otsu") 50 with
        | error e =>
          simp only [hth, if_true, List.nil_append] at hf
          rcases List.mem_cons.mp hf with rfl | hf2
          · exact ⟨"_gr.png", by simp, rfl⟩
          · rcases List.mem_singleton.mp hf2 with rfl
            exact ⟨"_s.png", by simp, rfl⟩
        | ok p =>
          cases p with
          | mk mooney thr =>
            simp only [hth, if_true, List.nil_append] at hf
            rcases List.mem_cons.mp hf with rfl | hf2
            · exact ⟨"_gr.png", by simp, rfl⟩
            · rcases List.mem_cons.mp hf2 with rfl | hf3
              · exact ⟨"_s.png", by simp, rfl⟩
              · rcases List.mem_singleton.mp hf3 with rfl
                exact ⟨"_m.png", by simp, rfl⟩
    | c3 c =>
      cases hg : rgb2gray c with
      | error e =>
        simp [applyMooneyTransform, hg] at hf
      | ok g =>
        cases hrsz : t.resize.getD false with
        | false =>
          simp only [applyMooneyTransform, hg, hrsz] at hf
          cases hth : threshold_img
              (.g2 (gaussF g (t.smooth_sigma.getD 6))) (t.threshold_method.getD "global_otsu") 50 with
          | error e =>
            simp only [hth, Bool.false_eq_true, if_false] at hf
            rcases List.mem_cons.mp hf with rfl | hf2
            · exact ⟨"_g.png", by simp, rfl⟩
            · rcases List.mem_singleton.mp hf2 with rfl
              exact ⟨"_s.png", by simp, rfl⟩
          | ok p =>
            cases p with
            | mk mooney thr =>
              simp only [hth, Bool.false_eq_true, if_false] at hf
              rcases List.mem_cons.mp hf with rfl | hf2
              · exact ⟨"_g.png", by simp, rfl⟩
              · rcases List.mem_cons.mp hf2 with rfl | hf3
                · exact ⟨"_s.png", by simp, rfl⟩
                · rcases List.mem_singleton.mp hf3 with rfl
                  exact ⟨"_m.png", by simp, rfl⟩
        | true =>
          simp only [applyMooneyTransform, hg, hrsz] at hf
          cases hth : threshold_img
              (.g2 (gaussF (resizeF g (t.image_size.getD (400, 400))) (t.smooth_sigma.getD 6)))
              (t.threshold_method.getD "global_otsu") 50 with
          | error e =>
            simp only [hth, if_true] at hf
            rcases List.mem_cons.mp hf with rfl | hf2
            · exact ⟨"_g.png", by simp, rfl⟩
            · rcases List.mem_cons.mp hf2 with rfl | hf3
              · exact ⟨"_gr.png", by simp, rfl⟩
              · rcases List.mem_singleton.mp hf3 with rfl
                exact ⟨"_s.png", by simp, rfl⟩
          | ok p =>
            cases p with
            | mk mooney thr =>
              simp only [hth, if_true] at hf
              rcases List.mem_cons.mp hf with rfl | hf2
              · exact ⟨"_g.png", by simp, rfl⟩
              · rcases List.mem_cons.mp hf2 with rfl | hf3
                · exact ⟨"_gr.png", by simp, rfl⟩
                · rcases List.mem_cons.mp hf3 with rfl | hf4
                  · exact ⟨"_s.png", by simp, rfl⟩
                  · rcases List.mem_singleton.mp hf4 with rfl
                    exact ⟨"_m.png", by simp, rfl⟩

/-- Witness for the amended C3 at a concrete run with filename a.b.jpg. -/
theorem pipeline_filenames_witness :
    ∃ sfx ∈ (["_g.png", "_gr.png", "_s.png", "_m.png"] : List String),
      "out/a_s.png" = pathJoin "out" (pySplitFirst "a.b.jpg" ++ sfx) :=
  pipeline_filenames (fun g _ => g) (fun g _ => g) (.g2 [[0, 2]]) "" "a.b.jpg" "out"
    (.dict ⟨none, none, none, none⟩) none none "out/a_s.png" (by decide)

/-- C3 counterexample: for the source filename a.b.jpg the code strips
everything from the FIRST dot on (basename a), while the claim prescribes
stripping only the final extension (basename a.b): the persisted files of
a concrete run are out/a_s.png and out/a_m.png, not the claimed
out/a.b_s.png and out/a.b_m.png. -/
theorem pipeline_filenames_counterexample :
    (applyMooneyTransform (fun g _ => g) (fun g _ => g) (.g2 [[0, 2]]) "" "a.b.jpg" "out"
      (.dict ⟨none, none, none, none⟩) none none).1 = ["out/a_s.png", "out/a_m.png"]
    ∧ stripLastExt "a.b.jpg" = "a.b"
    ∧ pySplitFirst "a.b.jpg" ≠ stripLastExt "a.b.jpg"
    ∧ "out/a_s.png" ≠ pathJoin "out" (stripLastExt "a.b.jpg" ++ "_s.png") := by decide

/-- C5 (amended): the only configuration validation the pipeline performs
before running is the isinstance assertion: a transformations argument
that is not a dict is rejected up front, before any stage runs or any
file is written. A dict with missing fields is not rejected: every field
is silently filled with its default (image_size (400, 400), resize False,
smooth_sigma 6, threshold_method global_otsu) and the pipeline behaves
exactly as with the explicit defaults. -/
theorem pipeline_config_validation (gaussF : Gray → Nat → Gray)
    (resizeF : Gray → Nat × Nat → Gray) (img : PyImage)
    (imagepath imgname mooneypath : String) (url : Option String)
    (photo_id : Option Nat) :
    applyMooneyTransform gaussF resizeF img imagepath imgname mooneypath .notDict
        url photo_id
      = ([], .error "AssertionError: transformations argument has to be a dict")
    ∧ applyMooneyTransform gaussF resizeF img imagepath imgname mooneypath
        (.dict ⟨none, none, none, none⟩) url photo_id
      = applyMooneyTransform gaussF resizeF img imagepath imgname mooneypath
        (.dict ⟨some (400, 400), some false, some 6, some "global_otsu"⟩) url photo_id :=
  ⟨rfl, rfl⟩

/-- C5 counterexample: a configuration with every field missing is
malformed in the sense of the claim, yet a concrete run with it does not
fail before any stage: it runs to completion and returns a result; and a
configuration with an invalid threshold_method value fails only at the
thresholding stage, after the smoothed intermediate file has already been
written, not before any stage runs. -/
theorem pipeline_config_counterexample :
    exceptIsOk (applyMooneyTransform (fun g _ => g) (fun g _ => g) (.g2 [[0, 2]]) ""
        "x.png" "" (.dict ⟨none, none, none, none⟩) none none).2 = true
    ∧ (applyMooneyTransform (fun g _ => g) (fun g _ => g) (.g2 [[0, 2]]) "" "x.png" ""
        (.dict ⟨none, none, none, some "bogus"⟩) none none)
      = (["x_s.png"], .error "UnboundLocalError: img_binary referenced before assignment") := by
  decide

/-- C6 (amended): the pipeline performs no dimensionality validation: a
3D image needs at least 3 trailing channels per pixel for the np.dot in
rgb2gray to be defined, and conversion then uses only the first three
channels; a 3D image with MORE than 3 trailing channels (an unsupported
shape per the data model) is not rejected, its extra channels are
silently ignored; only fewer than 3 channels raises, via the shape
mismatch inside np.dot. -/
theorem rgb2gray_channel_handling (img : Color) :
    ((∀ row ∈ img, ∀ c ∈ row, 3 ≤ c.length) →
        rgb2gray img = .ok (img.map (fun row => row.map grayPixel))
        ∧ ∀ row ∈ img, ∀ c ∈ row, grayPixel c = grayPixel (c.take 3))
    ∧ (¬ (∀ row ∈ img, ∀ c ∈ row, 3 ≤ c.length) →
        rgb2gray img = .error "ValueError: shapes not aligned") := by
  constructor
  · intro hc
    constructor
    · have hall : img.all (fun row => row.all (fun c => decide (3 ≤ c.length))) = true := by
        simp only [List.all_eq_true, decide_eq_true_eq]
        exact hc
      simp [rgb2gray, hall]
    · intro row hrow c hcc
      have h3 : 3 ≤ c.length := hc row hrow c hcc
      unfold grayPixel
      rw [getDq c, getDq c, getDq c, getDq (c.take 3), getDq (c.take 3), getDq (c.take 3)]
      simp [List.getElem?_take]
  · intro hc
    have hall : img.all (fun row => row.all (fun c => decide (3 ≤ c.length))) = false := by
      by_contra hne
      exact hc (by
        have htrue : img.all (fun row => row.all (fun c => decide (3 ≤ c.length))) = true := by
          cases hx : img.all (fun row => row.all (fun c => decide (3 ≤ c.length))) with
          | true => rfl
          | false => exact absurd hx hne
        intro row hrow c hcc
        have := List.all_eq_true.mp htrue row hrow
        have := List.all_eq_true.mp this c hcc
        simpa using this)
    simp [rgb2gray, hall]

/-- Witness for the amended C6 at a 4-channel pixel. -/
theorem rgb2gray_channel_handling_witness :
    rgb2gray [[[10, 20, 30, 255]]]
        = .ok (([[[10, 20, 30, 255]]] : Color).map (fun row => row.map grayPixel))
      ∧ ∀ row ∈ ([[[10, 20, 30, 255]]] : Color), ∀ c ∈ row,
          grayPixel c = grayPixel (c.take 3) :=
  (rgb2gray_channel_handling [[[10, 20, 30, 255]]]).1 (by decide)

/-- C6 counterexample: the 1 x 1 image with the single 4-channel pixel
(10, 20, 30, 255) has an unsupported dimensionality per the claim (3D
but not exactly 3 trailing channels), yet a concrete pipeline run on it
does not fail: it completes and returns a result, having silently used
only the first three channels (grayscale value 18). -/
theorem pipeline_shape_counterexample :
    exceptIsOk (applyMooneyTransform (fun g _ => g) (fun g _ => g)
        (.c3 [[[10, 20, 30, 255]]]) "" "x.png" ""
        (.dict ⟨none, none, none, none⟩) none none).2 = true
    ∧ rgb2gray [[[10, 20, 30, 255]]] = .ok [[18]]
    ∧ rgb2gray [[[10, 20, 30]]] = .ok [[18]] := by decide

theorem mkdirChain_error (ps : List (List String)) :
    ∀ fs e, mkdirChain fs ps = .error e → ∃ q, e = .permissionError q := by
  induction ps with
  | nil =>
    intro fs e h
    simp [mkdirChain] at h
  | cons q rest ih =>
    intro fs e h
    simp only [mkdirChain] at h
    by_cases h1 : q ∈ fs.dirs
    · rw [if_pos h1] at h
      exact ih fs e h
    · rw [if_neg h1] at h
      by_cases h2 : q ∈ fs.denied
      · rw [if_pos h2] at h
        injection h with h3
        exact ⟨q, h3.symm⟩
      · rw [if_neg h2] at h
        exact ih _ e h

theorem mkdirChain_all_present (ps : List (List String)) :
    ∀ fs, (∀ q ∈ ps, q ∈ fs.dirs) → mkdirChain fs ps = .ok fs := by
  induction ps with
  | nil =>
    intro fs _
    rfl
  | cons q rest ih =>
    intro fs h
    have hq : q ∈ fs.dirs := h q (List.mem_cons_self q rest)
    simp only [mkdirChain, if_pos hq]
    exact ih fs (fun x hx => h x (List.mem_cons_of_mem q hx))

theorem mkdirChain_mono (ps : List (List String)) :
    ∀ fs fs2, mkdirChain fs ps = .ok fs2 → ∀ d ∈ fs.dirs, d ∈ fs2.dirs := by
  induction ps with
  | nil =>
    intro fs fs2 h d hd
    cases h
    exact hd
  | cons q rest ih =>
    intro fs fs2 h d hd
    simp only [mkdirChain] at h
    by_cases h1 : q ∈ fs.dirs
    · rw [if_pos h1] at h
      exact ih fs fs2 h d hd
    · rw [if_neg h1] at h
      by_cases h2 : q ∈ fs.denied
      · rw [if_pos h2] at h
        cases h
      · rw [if_neg h2] at h
        exact ih _ fs2 h d (List.mem_cons_of_mem q hd)

theorem mkdirChain_creates (ps : List (List String)) :
    ∀ fs fs2, mkdirChain fs ps = .ok fs2 → ∀ q ∈ ps, q ∈ fs2.dirs := by
  induction ps with
  | nil =>
    intro fs fs2 _ q hq
    cases hq
  | cons q rest ih =>
    intro fs fs2 h x hx
    simp only [mkdirChain] at h
    by_cases h1 : q ∈ fs.dirs
    · rw [if_pos h1] at h
      rcases List.mem_cons.mp hx with rfl | hx2
      · exact mkdirChain_mono rest fs fs2 h x h1
      · exact ih fs fs2 h x hx2
    · rw [if_neg h1] at h
      by_cases h2 : q ∈ fs.denied
      · rw [if_pos h2] at h
        cases h
      · rw [if_neg h2] at h
        rcases List.mem_cons.mp hx with rfl | hx2
        · exact mkdirChain_mono rest _ fs2 h x (List.mem_cons_self x _)
        · exact ih _ fs2 h x hx2

/-- C8: utils_image.mkdir never surfaces the raw PermissionError: every
failure is the descriptive ValueError whose message names the path and
asks to adapt permissions; creating a directory whose ancestor chain
already exists succeeds and leaves the filesystem unchanged (idempotent,
exist_ok); and a successful call guarantees the directory and all its
parent directories exist afterwards. -/
theorem mkdir_spec (fs : FileSystem) (p : List String) :
    (∀ e, mkdir fs p = .error e →
        e = .valueError ("Please adapt permissions to create "
          ++ String.intercalate "/" p ++ " or choose a different directory."))
    ∧ ((∀ q ∈ ancestors p, q ∈ fs.dirs) → mkdir fs p = .ok fs)
    ∧ (∀ fs2, mkdir fs p = .ok fs2 → ∀ q ∈ ancestors p, q ∈ fs2.dirs) := by
  refine ⟨?_, ?_, ?_⟩
  · intro e he
    unfold mkdir pathMkdir at he
    cases hm : mkdirChain fs (ancestors p) with
    | ok fs2 =>
      rw [hm] at he
      simp at he
    | error exc =>
      obtain ⟨q, rfl⟩ := mkdirChain_error (ancestors p) fs exc hm
      rw [hm] at he
      injection he with h3
      exact h3.symm
  · intro hall
    unfold mkdir pathMkdir
    rw [mkdirChain_all_present (ancestors p) fs hall]
  · intro fs2 h2 q hq
    unfold mkdir pathMkdir at h2
    cases hm : mkdirChain fs (ancestors p) with
    | ok fs3 =>
      rw [hm] at h2
      have h4 : fs3 = fs2 := by injection h2
      exact h4 ▸ mkdirChain_creates (ancestors p) fs fs3 hm q hq
    | error exc =>
      obtain ⟨qq, rfl⟩ := mkdirChain_error (ancestors p) fs exc hm
      rw [hm] at h2
      cases h2

/-- Witness for C8 at a concrete filesystem and path. -/
theorem mkdir_spec_witness :
    (∀ e, mkdir ⟨[["a"]], [["a", "x"]]⟩ ["a", "b"] = .error e →
        e = .valueError ("Please adapt permissions to create "
          ++ String.intercalate "/" ["a", "b"] ++ " or choose a different directory."))
    ∧ ((∀ q ∈ ancestors ["a", "b"], q ∈ (⟨[["a"]], [["a", "x"]]⟩ : FileSystem).dirs) →
        mkdir ⟨[["a"]], [["a", "x"]]⟩ ["a", "b"] = .ok ⟨[["a"]], [["a", "x"]]⟩)
    ∧ (∀ fs2, mkdir ⟨[["a"]], [["a", "x"]]⟩ ["a", "b"] = .ok fs2 →
        ∀ q ∈ ancestors ["a", "b"], q ∈ fs2.dirs) :=
  mkdir_spec ⟨[["a"]], [["a", "x"]]⟩ ["a", "b"]
